import Mathlib

/-!
Verification development for the Vantage repository (knowledge-graph research
assistant).  The definitions below are shallow embeddings of the Python source:

* `src/Vantage/tools.py`   — `research_and_learn`, `query_graph_database`
* `src/Vantage/seed.py`    — `seed_company` escaping, `create_competition`
* `src/Vantage/api.py`     — `extract_entity_from_query`, `/graph` endpoint query
* `src/Vantage/whiteboard_tools.py` — `emit_action`, node helpers, `analyze_portfolio`

Graph writes are issued by the Python code as Cypher statements against Neo4j;
we embed the effect of each concrete statement the code issues on an explicit
property-graph state (`GraphState`), using standard Cypher `MERGE` / `MATCH` /
`SET` semantics: `MERGE (n:L {id: x})` matches on the whole pattern (label and
property together) and creates a fresh node when no node carries both;
`MATCH (n {id: x}) SET n:Investor` adds a label to every node with that id;
`MATCH (a {id:s}), (b {id:t}) MERGE (a)-[:T]->(b)` merges one edge per matched
row.  External oracles (web search, LLM completion, JSON parsing of the LLM
output, the Cypher QA chain) are passed in as `Except`-valued parameters.
-/

namespace Vantage

/-! ### String utilities mirroring the Python built-ins used by the source -/

/-- Substring test on char lists via repeated prefix checks;
models Python's `needle in hay`. -/
def isSubstrL (needle : List Char) : List Char → Bool
  | [] => needle.isEmpty
  | c :: rest => needle.isPrefixOf (c :: rest) || isSubstrL needle rest

/-- Python `needle in hay` on strings. -/
def containsSubstr (hay needle : String) : Bool :=
  isSubstrL needle.data hay.data

/-- Python `str.lower()` (ASCII). -/
def pyLower (s : String) : String := ⟨s.data.map Char.toLower⟩

/-- Python `str.upper()` (ASCII). -/
def pyUpper (s : String) : String := ⟨s.data.map Char.toUpper⟩

/-- Python `str.strip()`: remove leading and trailing whitespace. -/
def pyStrip (s : String) : String :=
  ⟨((s.data.dropWhile Char.isWhitespace).reverse.dropWhile Char.isWhitespace).reverse⟩

/-- Helper for `pySplitComma`; the accumulator holds the current field
reversed. -/
def splitCommaAux : List Char → List Char → List String
  | [], acc => [⟨acc.reverse⟩]
  | c :: rest, acc =>
    if c = ',' then ⟨acc.reverse⟩ :: splitCommaAux rest []
    else splitCommaAux rest (c :: acc)

/-- Python `s.split(",")`. -/
def pySplitComma (s : String) : List String :=
  splitCommaAux s.data []

/-- Helper for `pyTitle`: the boolean records whether the previous character
was a letter (a cased character). -/
def pyTitleAux : Bool → List Char → List Char
  | _, [] => []
  | prevAlpha, c :: rest =>
    if c.isAlpha then
      (if prevAlpha then c.toLower else c.toUpper) :: pyTitleAux true rest
    else
      c :: pyTitleAux false rest

/-- Python `str.title()` (ASCII): uppercase every letter that follows a
non-letter, lowercase the other letters. -/
def pyTitle (s : String) : String :=
  ⟨pyTitleAux false s.data⟩

/-- Drop the leading whitespace run of a char list (the `\s+` part of the
source's anchored patterns, greedy). -/
def dropLeadingWS : List Char → List Char
  | [] => []
  | c :: rest => if c.isWhitespace then dropLeadingWS rest else c :: rest

/-- One step of `re.sub(f"^{p}", "", s, flags=re.IGNORECASE)` where `p` is a
literal phrase followed by `\s+`: if `s` starts (case-insensitively) with the
phrase followed by at least one whitespace character, remove the phrase and
the whitespace run; otherwise return `s` unchanged. -/
def stripLeadPhrase (phrase s : String) : String :=
  if ((pyLower phrase).data).isPrefixOf ((pyLower s).data) then
    let rest := s.data.drop (pyLower phrase).data.length
    match rest with
    | [] => s
    | c :: _ => if c.isWhitespace then ⟨dropLeadingWS rest⟩ else s
  else s

/-! ### Property-graph state and the effect of the issued Cypher statements -/

/-- A property-graph node: `id` property, label set (as an ordered list) and
scalar properties. -/
structure GNode where
  id : String
  labels : List String
  props : List (String × String)
deriving Repr, DecidableEq

/-- A graph state: the node list (edge endpoints are indices into it, so two
nodes with the same `id` remain distinguishable, as in Neo4j) and the edge
list of (source index, target index, relationship type) triples. -/
structure GraphState where
  nodes : List GNode
  edges : List (Nat × Nat × String)
deriving Repr, DecidableEq

def emptyGraph : GraphState := ⟨[], []⟩

/-- Effect of `MERGE (n:{label} {id: $name})` (tools.py line 95): if some node
carries both the label and the id, do nothing; otherwise create a fresh node
with exactly that label and id. -/
def mergeNodeLabelId (label id : String) (g : GraphState) : GraphState :=
  if ∃ n ∈ g.nodes, n.id = id ∧ label ∈ n.labels then g
  else { g with nodes := g.nodes ++ [⟨id, [label], []⟩] }

def addLabel (l : String) (n : GNode) : GNode :=
  if l ∈ n.labels then n else { n with labels := n.labels ++ [l] }

/-- Effect of `MATCH (n {id: $name}) SET n:{l}` (tools.py line 101 with
`l = Investor`): add the label to every node whose id matches. -/
def setLabelById (id l : String) (g : GraphState) : GraphState :=
  { g with nodes := g.nodes.map (fun n => if n.id = id then addLabel l n else n) }

/-- Effect of Cypher `MERGE` on a single relationship row: append the edge
unless the exact triple is already present. -/
def addEdgeIfAbsent (e : Nat × Nat × String) (g : GraphState) : GraphState :=
  if e ∈ g.edges then g else { g with edges := g.edges ++ [e] }

/-- Merge a list of relationship rows in order. -/
def addEdges (es : List (Nat × Nat × String)) (g : GraphState) : GraphState :=
  es.foldl (fun g e => addEdgeIfAbsent e g) g

/-- Indices of the nodes satisfying a predicate (the match set of a
single-node pattern). -/
def nodeIdxs (g : GraphState) (p : GNode → Bool) : List Nat :=
  (List.range g.nodes.length).filter (fun i =>
    match g.nodes.get? i with
    | some n => p n
    | none => false)

/-- Row set of `MATCH (a {id: s}), (b {id: t})` paired with the edge type to
merge. -/
def edgeRows (g : GraphState) (s t typ : String) : List (Nat × Nat × String) :=
  (nodeIdxs g (fun n => decide (n.id = s))).flatMap (fun a =>
    (nodeIdxs g (fun n => decide (n.id = t))).map (fun b => (a, b, typ)))

/-- Effect of `MATCH (a {id: $source}), (b {id: $target})
MERGE (a)-[:{rel_type}]->(b)` (tools.py lines 103–107): merge one edge per
matched row. -/
def mergeEdgeById (s t typ : String) (g : GraphState) : GraphState :=
  addEdges (edgeRows g s t typ) g

/-! ### Ingestion (`research_and_learn`, tools.py lines 87–113) -/

structure Rel where
  source : String
  target : String
  typ : String
deriving Repr, DecidableEq

/-- The parsed extraction JSON (`data` in tools.py). -/
structure ExtractionResult where
  companies : List String
  people : List String
  sectors : List String
  locations : List String
  relationships : List Rel
deriving Repr, DecidableEq

/-- Node-creation loop of `research_and_learn` (tools.py lines 92–95): the four
mention lists are merged in source order under their fixed labels. -/
def ingestNodes (d : ExtractionResult) (g : GraphState) : GraphState :=
  let g1 := d.companies.foldl (fun g x => mergeNodeLabelId "Organization" x g) g
  let g2 := d.people.foldl (fun g x => mergeNodeLabelId "Person" x g) g1
  let g3 := d.sectors.foldl (fun g x => mergeNodeLabelId "Sector" x g) g2
  d.locations.foldl (fun g x => mergeNodeLabelId "Location" x g) g3

/-- One iteration of the relationship loop (tools.py lines 98–107):
uppercase the type, promote the source to `Investor` when the type is
`INVESTED_IN`, then merge the edge. -/
def ingestRel (g : GraphState) (r : Rel) : GraphState :=
  let rt := pyUpper r.typ
  let g1 := if rt = "INVESTED_IN" then setLabelById r.source "Investor" g else g
  mergeEdgeById r.source r.target rt g1

/-- Graph effect of the write phase of `research_and_learn`: all node merges,
then all relationship merges. -/
def ingest (d : ExtractionResult) (g : GraphState) : GraphState :=
  (ingestNodes d g) |> d.relationships.foldl ingestRel

/-- Summary string built at tools.py lines 110–112. -/
def summaryMsg (d : ExtractionResult) : String :=
  let base := "I have updated the database. Found: " ++
    String.intercalate ", " (d.companies.take 3) ++ ". "
  if d.people.isEmpty then base
  else base ++ "Key People: " ++ String.intercalate ", " d.people ++ "."

/-- Model of `research_and_learn` (tools.py lines 29–116) with its external effects as
parameters: `searchAvailable` models `SEARCH_AVAILABLE`, `searchResult` the
outcome of `search_tool.invoke`, and `parseResult` the outcome of
code-fence-stripping plus `json.loads` on the LLM reply.  Returns the string
handed back to the orchestrator together with the graph state. -/
def research_and_learn (searchAvailable : Bool)
    (searchResult : Except String String)
    (parseResult : Except String ExtractionResult)
    (g : GraphState) : String × GraphState :=
  if !searchAvailable then ("Search tool not available.", g)
  else
    match searchResult with
    | Except.error e => ("Search failed: " ++ e, g)
    | Except.ok _raw =>
      match parseResult with
      | Except.error e => ("Error: " ++ e, g)
      | Except.ok d => (summaryMsg d, ingest d g)

/-- Model of `query_graph_database` (tools.py lines 133–144): the chain outcome is a
parameter; any failure is converted to the fixed sentence. -/
def query_graph_database (chainResult : Except String String) : String :=
  match chainResult with
  | Except.ok r => r
  | Except.error _ => "No info in graph."

/-! ### Seeding (`seed.py`) -/

/-- Row set of `MATCH (a:Organization {id: x}), (b:Organization {id: y})`
paired with an edge type. -/
def orgEdgeRows (g : GraphState) (x y typ : String) : List (Nat × Nat × String) :=
  (nodeIdxs g (fun n => decide (n.id = x ∧ "Organization" ∈ n.labels))).flatMap (fun a =>
    (nodeIdxs g (fun n => decide (n.id = y ∧ "Organization" ∈ n.labels))).map
      (fun b => (a, b, typ)))

/-- Effect of one query of `create_competition` (seed.py lines 174–179):
`MATCH (a:Organization {id: ci}), (b:Organization {id: cj})
MERGE (a)-[:COMPETES_WITH]->(b) MERGE (b)-[:COMPETES_WITH]->(a)` — per matched
row, merge the forward then the backward edge. -/
def competePair (x y : String) (g : GraphState) : GraphState :=
  addEdges ((orgEdgeRows g x y "COMPETES_WITH").flatMap
    (fun e => [e, (e.2.1, e.1, e.2.2)])) g

/-- The (i, j) pairs visited by the nested loops of `create_competition`
(seed.py lines 172–173): every `(companies[i], companies[j])` with `i < j`, in
loop order. -/
def companyPairs : List String → List (String × String)
  | [] => []
  | c :: rest => rest.map (fun c2 => (c, c2)) ++ companyPairs rest

/-- Model of `create_competition` (seed.py lines 171–179). -/
def create_competition (companies : List String) (g : GraphState) : GraphState :=
  (companyPairs companies).foldl (fun g p => competePair p.1 p.2 g) g

/-! ### Quote escaping and the Cypher string-literal reader (`seed.py`,
`api.py /graph`) -/

/-- Python `s.replace("'", "\\'")` as used on every interpolated value in
`seed_company` (seed.py lines 24–27, 38, 46) and on the focus entity in
`get_graph` (api.py line 368). -/
def escapeQuote (s : String) : String :=
  ⟨s.data.flatMap (fun c => if c = '\'' then ['\\', '\''] else [c])⟩

/-- The fragment each of those call sites splices into its query text: an
opening quote, the escaped value, a closing quote. -/
def escapedLiteral (s : String) : String :=
  "'" ++ escapeQuote s ++ "'"

/-- Resolve a Cypher escape sequence character (openCypher: `\'`, `\"`, `\\`,
`\n`, `\t`, `\r`; an unknown escape stands for the character itself). -/
def cypherUnescape (c : Char) : Char :=
  if c = 'n' then '\n' else if c = 't' then '\t' else if c = 'r' then '\r' else c

/-- Read the body of a single-quoted Cypher string literal (the opening quote
already consumed): returns the decoded content and the remaining characters
after the closing quote, or `none` when the literal is unterminated. -/
def readQuotedBody : List Char → Option (List Char × List Char)
  | [] => none
  | '\'' :: rest => some ([], rest)
  | '\\' :: [] => none
  | '\\' :: c :: rest =>
    (readQuotedBody rest).map (fun p => (cypherUnescape c :: p.1, p.2))
  | c :: rest =>
    (readQuotedBody rest).map (fun p => (c :: p.1, p.2))

/-- Read a single-quoted literal from the front of a character stream. -/
def readLiteral (s : String) : Option (List Char × List Char) :=
  match s.data with
  | '\'' :: rest => readQuotedBody rest
  | _ => none

/-! ### JSON serialization and the action emitter (`whiteboard_tools.py`) -/

/-- JSON values as produced by the whiteboard helpers (string fields and
nested objects only, which covers every payload they build apart from the
numeric company fields). -/
inductive JValue where
  | str : String → JValue
  | obj : List (String × JValue) → JValue

/-- Hex digit for `\uXXXX` escapes. -/
def hexDigit (n : Nat) : Char :=
  if n < 10 then Char.ofNat (48 + n) else Char.ofNat (87 + n)

/-- Python `json.dumps` escaping of one character (default `ensure_ascii`):
quote, backslash, the named control escapes, `\uXXXX` for other control or
non-ASCII characters; everything else — including `<`, `>`, `:` — is kept
verbatim. -/
def pyJsonEscapeChar (c : Char) : List Char :=
  if c = '"' then ['\\', '"']
  else if c = '\\' then ['\\', '\\']
  else if c = '\n' then ['\\', 'n']
  else if c = '\t' then ['\\', 't']
  else if c = '\r' then ['\\', 'r']
  else if c.toNat < 32 || c.toNat > 126 then
    ['\\', 'u', hexDigit (c.toNat / 4096 % 16), hexDigit (c.toNat / 256 % 16),
      hexDigit (c.toNat / 16 % 16), hexDigit (c.toNat % 16)]
  else [c]

def pyJsonEscape (s : String) : String :=
  ⟨s.data.flatMap pyJsonEscapeChar⟩

mutual

/-- Python `json.dumps` with default separators `", "` and `": "` and
insertion-ordered keys. -/
def pyDumps : JValue → String
  | JValue.str s => "\"" ++ pyJsonEscape s ++ "\""
  | JValue.obj fs => "\x7b" ++ pyDumpsFields fs ++ "\x7d"

def pyDumpsFields : List (String × JValue) → String
  | [] => ""
  | [(k, v)] => "\"" ++ pyJsonEscape k ++ "\": " ++ pyDumps v
  | (k, v) :: rest =>
    "\"" ++ pyJsonEscape k ++ "\": " ++ pyDumps v ++ ", " ++ pyDumpsFields rest

end

/-- Model of `emit_action` (whiteboard_tools.py lines 24–31): wrap the serialized
`{type, data}` record in the `<<<ACTION: … :ACTION>>>` marker pair. -/
def emit_action (typ : String) (data : JValue) : String :=
  "\n<<<ACTION:" ++ pyDumps (JValue.obj [("type", JValue.str typ), ("data", data)]) ++
    ":ACTION>>>\n"

/-- Payload of `create_text_node` (whiteboard_tools.py lines 149–167). -/
def textNodeData (title content : String) : JValue :=
  JValue.obj [("title", JValue.str title), ("node_type", JValue.str "text"),
    ("data", JValue.obj [("content", JValue.str content)])]

def create_text_node (title content : String) : String :=
  emit_action "create_node" (textNodeData title content)

/-- Payload of `create_metric_node` (whiteboard_tools.py lines 85–111). -/
def metricNodeData (label value ticker trend unit : String) : JValue :=
  JValue.obj [("title", JValue.str label), ("node_type", JValue.str "metric"),
    ("metric", JValue.obj [("label", JValue.str label), ("value", JValue.str value),
      ("ticker", JValue.str (if ticker = "" then "" else pyUpper ticker)),
      ("trend", JValue.str trend), ("unit", JValue.str unit),
      ("metricType", JValue.str "custom")])]

def create_metric_node (label value ticker trend unit : String) : String :=
  emit_action "create_metric" (metricNodeData label value ticker trend unit)

/-! ### `analyze_portfolio` (whiteboard_tools.py lines 211–244) -/

/-- Python `[t.strip().upper() for t in tickers.split(",")]`. -/
def tickerSplit (tickers : String) : List String :=
  (pySplitComma tickers).map (fun t => pyUpper (pyStrip t))

/-- The dict appended per ticker inside the loop (whiteboard_tools.py
lines 226–237). -/
def chartAction (ticker : String) : JValue :=
  JValue.obj [("type", JValue.str "create_chart"),
    ("data", JValue.obj [("title", JValue.str (ticker ++ " Chart")),
      ("node_type", JValue.str "chart"),
      ("chart", JValue.obj [("ticker", JValue.str ticker),
        ("chartType", JValue.str "line"), ("timeframe", JValue.str "1M")])])]

/-- The `actions` list: one chart action per ticker, limited to the first
six (`ticker_list[:6]`). -/
def portfolioActions (tickers : String) : List JValue :=
  ((tickerSplit tickers).take 6).map chartAction

/-- Model of `analyze_portfolio`: concatenate the marker-wrapped action records, then
the confirmation sentence listing every ticker. -/
def analyze_portfolio (tickers : String) : String :=
  ((portfolioActions tickers).foldl
    (fun acc a => acc ++ "\n<<<ACTION:" ++ pyDumps a ++ ":ACTION>>>\n") "") ++
  "\nCreated portfolio view for: " ++ String.intercalate ", " (tickerSplit tickers)

/-! ### Entity extraction (`api.py` lines 90–109) -/

def knownEntities : List String :=
  ["OpenAI", "Anthropic", "Perplexity", "Databricks",
   "Zepto", "Swiggy", "Zomato", "Blinkit", "Meesho",
   "Microsoft", "NVIDIA", "SoftBank", "Google", "Amazon"]

/-- The literal phrases of the anchored patterns in api.py lines 102–105
(each pattern is the phrase followed by `\s+`). -/
def leadPhrases : List String :=
  ["research", "analyze", "write an investment memo for", "memo for",
   "tell me about"]

/-- Model of `extract_entity_from_query` (api.py lines 90–109): return the first known
entity whose lowercase name occurs in the lowercased query; otherwise strip
the anchored lead phrases, trim and title-case. -/
def extract_entity_from_query (query : String) : String :=
  if query = "" then ""
  else
    let ql := pyLower query
    match knownEntities.find? (fun e => containsSubstr ql (pyLower e)) with
    | some e => e
    | none =>
      let clean := leadPhrases.foldl (fun s p => stripLeadPhrase p s) query
      pyTitle (pyStrip clean)

/-! ### Observation helpers on graph states -/

/-- Number of nodes carrying a given id. -/
def nodeCountWithId (g : GraphState) (x : String) : Nat :=
  (g.nodes.filter (fun n => decide (n.id = x))).length

/-- Some node carries this id and this label. -/
def hasNodeLabelB (g : GraphState) (id l : String) : Bool :=
  g.nodes.any (fun n => decide (n.id = id ∧ l ∈ n.labels))

/-- Some single node carries this id and both labels. -/
def hasNodeLabels2B (g : GraphState) (id l1 l2 : String) : Bool :=
  g.nodes.any (fun n => decide (n.id = id ∧ l1 ∈ n.labels ∧ l2 ∈ n.labels))

/-- Some recorded edge of the given type joins a node with id `s` to a node
with id `t`. -/
def edgeExistsB (g : GraphState) (s t typ : String) : Bool :=
  g.edges.any (fun e =>
    decide (e.2.2 = typ) &&
    (match g.nodes.get? e.1, g.nodes.get? e.2.1 with
     | some a, some b => decide (a.id = s) && decide (b.id = t)
     | _, _ => false))

/-- Number of copies of an exact edge triple. -/
def countEdge (g : GraphState) (e : Nat × Nat × String) : Nat :=
  (g.edges.filter (fun x => decide (x = e))).length

/-- A two-node seed graph used to instantiate theorems with hypotheses. -/
def twoOrgGraph : GraphState :=
  ⟨[⟨"A", ["Organization"], []⟩, ⟨"B", ["Organization"], []⟩], []⟩

/-- A concrete investment relationship used to instantiate theorems. -/
def invDemoRel : Rel := ⟨"Microsoft", "OpenAI", "INVESTED_IN"⟩

/-- A concrete extraction result used to instantiate theorems. -/
def invDemoExtraction : ExtractionResult :=
  ⟨["Microsoft", "OpenAI"], [], [], [], [invDemoRel]⟩

/-! ### Helper lemmas about the graph operations -/

lemma addEdgeIfAbsent_nodes (e : Nat × Nat × String) (g : GraphState) :
    (addEdgeIfAbsent e g).nodes = g.nodes := by
  unfold addEdgeIfAbsent; split <;> rfl

lemma mem_addEdgeIfAbsent (x e : Nat × Nat × String) (g : GraphState) :
    x ∈ (addEdgeIfAbsent e g).edges ↔ x ∈ g.edges ∨ x = e := by
  unfold addEdgeIfAbsent
  split
  · next h =>
    constructor
    · exact Or.inl
    · rintro (hx | rfl)
      · exact hx
      · exact h
  · next h => simp [List.mem_append]

lemma addEdges_cons (e : Nat × Nat × String) (es : List (Nat × Nat × String))
    (g : GraphState) : addEdges (e :: es) g = addEdges es (addEdgeIfAbsent e g) := rfl

lemma addEdges_nodes (es : List (Nat × Nat × String)) (g : GraphState) :
    (addEdges es g).nodes = g.nodes := by
  induction es generalizing g with
  | nil => rfl
  | cons e es ih => rw [addEdges_cons, ih, addEdgeIfAbsent_nodes]

lemma mem_addEdges (x : Nat × Nat × String) (es : List (Nat × Nat × String))
    (g : GraphState) : x ∈ (addEdges es g).edges ↔ x ∈ g.edges ∨ x ∈ es := by
  induction es generalizing g with
  | nil => simp [addEdges]
  | cons e es ih =>
    rw [addEdges_cons, ih, mem_addEdgeIfAbsent]
    simp [or_assoc]

lemma addEdges_eq_self (es : List (Nat × Nat × String)) (g : GraphState)
    (h : ∀ e ∈ es, e ∈ g.edges) : addEdges es g = g := by
  induction es generalizing g with
  | nil => rfl
  | cons e es ih =>
    rw [addEdges_cons]
    have he : addEdgeIfAbsent e g = g := by
      unfold addEdgeIfAbsent
      rw [if_pos (h e (List.mem_cons_self e es))]
    rw [he]
    exact ih g (fun x hx => h x (List.mem_cons_of_mem e hx))

lemma nodeIdxs_congr (g g' : GraphState) (p : GNode → Bool)
    (h : g'.nodes = g.nodes) : nodeIdxs g' p = nodeIdxs g p := by
  unfold nodeIdxs; rw [h]

lemma edgeRows_congr (g g' : GraphState) (s t typ : String)
    (h : g'.nodes = g.nodes) : edgeRows g' s t typ = edgeRows g s t typ := by
  unfold edgeRows
  rw [nodeIdxs_congr g g' _ h, nodeIdxs_congr g g' _ h]

lemma mergeEdgeById_nodes (s t typ : String) (g : GraphState) :
    (mergeEdgeById s t typ g).nodes = g.nodes :=
  addEdges_nodes _ _

lemma countEdge_pos_of_mem (g : GraphState) (e : Nat × Nat × String)
    (h : e ∈ g.edges) : 1 ≤ countEdge g e := by
  have : e ∈ g.edges.filter (fun x => decide (x = e)) :=
    List.mem_filter.mpr ⟨h, by simp⟩
  have hlen := List.length_pos.mpr (List.ne_nil_of_mem this)
  exact hlen

lemma countEdge_addEdgeIfAbsent_self (e : Nat × Nat × String) (g : GraphState)
    (h : countEdge g e ≤ 1) : countEdge (addEdgeIfAbsent e g) e = 1 := by
  unfold addEdgeIfAbsent
  split
  · next hmem => exact Nat.le_antisymm h (countEdge_pos_of_mem g e hmem)
  · next hmem =>
    unfold countEdge at *
    simp only [List.filter_append]
    have h0 : g.edges.filter (fun x => decide (x = e)) = [] := by
      rw [List.filter_eq_nil_iff]
      intro x hx hxe
      exact hmem (by simpa using (of_decide_eq_true hxe ▸ hx))
    simp [h0]

lemma mergeEdgeById_idem (s t typ : String) (g : GraphState) :
    mergeEdgeById s t typ (mergeEdgeById s t typ g) = mergeEdgeById s t typ g := by
  set G := mergeEdgeById s t typ g with hG
  have hn : G.nodes = g.nodes := mergeEdgeById_nodes s t typ g
  have hrows : edgeRows G s t typ = edgeRows g s t typ := edgeRows_congr g G s t typ hn
  show addEdges (edgeRows G s t typ) G = G
  rw [hrows]
  apply addEdges_eq_self
  intro e he
  rw [hG]
  exact (mem_addEdges e (edgeRows g s t typ) g).mpr (Or.inr he)

lemma mem_nodeIdxs (g : GraphState) (p : GNode → Bool) (i : Nat) :
    i ∈ nodeIdxs g p ↔ ∃ n, g.nodes.get? i = some n ∧ p n = true := by
  unfold nodeIdxs
  rw [List.mem_filter, List.mem_range]
  constructor
  · rintro ⟨hi, hq⟩
    cases hcase : g.nodes.get? i with
    | none =>
      rw [hcase] at hq
      simp at hq
    | some n =>
      rw [hcase] at hq
      exact ⟨n, rfl, hq⟩
  · rintro ⟨n, hget, hp⟩
    have hi : i < g.nodes.length := by
      by_contra hge
      rw [List.get?_eq_none.mpr (Nat.le_of_not_lt hge)] at hget
      cases hget
    exact ⟨hi, by rw [hget]; exact hp⟩

lemma competePair_nodes (x y : String) (g : GraphState) :
    (competePair x y g).nodes = g.nodes :=
  addEdges_nodes _ _

lemma competePair_mono (x y : String) (g : GraphState) (e : Nat × Nat × String)
    (h : e ∈ g.edges) : e ∈ (competePair x y g).edges :=
  (mem_addEdges e _ g).mpr (Or.inl h)

lemma competePair_creates (x y : String) (g : GraphState) (a b : Nat)
    (ha : ∃ n, g.nodes.get? a = some n ∧ n.id = x ∧ "Organization" ∈ n.labels)
    (hb : ∃ n, g.nodes.get? b = some n ∧ n.id = y ∧ "Organization" ∈ n.labels) :
    (a, b, "COMPETES_WITH") ∈ (competePair x y g).edges ∧
    (b, a, "COMPETES_WITH") ∈ (competePair x y g).edges := by
  obtain ⟨na, hga, hia, hla⟩ := ha
  obtain ⟨nb, hgb, hib, hlb⟩ := hb
  have hrow : (a, b, "COMPETES_WITH") ∈ orgEdgeRows g x y "COMPETES_WITH" := by
    unfold orgEdgeRows
    rw [List.mem_flatMap]
    refine ⟨a, ?_, ?_⟩
    · exact (mem_nodeIdxs g _ a).mpr ⟨na, hga, by simp [hia, hla]⟩
    · rw [List.mem_map]
      exact ⟨b, (mem_nodeIdxs g _ b).mpr ⟨nb, hgb, by simp [hib, hlb]⟩, rfl⟩
  constructor
  · refine (mem_addEdges _ _ g).mpr (Or.inr ?_)
    rw [List.mem_flatMap]
    exact ⟨(a, b, "COMPETES_WITH"), hrow, by simp⟩
  · refine (mem_addEdges _ _ g).mpr (Or.inr ?_)
    rw [List.mem_flatMap]
    exact ⟨(a, b, "COMPETES_WITH"), hrow, by simp⟩

lemma compFold_nodes (ps : List (String × String)) (g : GraphState) :
    (ps.foldl (fun g p => competePair p.1 p.2 g) g).nodes = g.nodes := by
  induction ps generalizing g with
  | nil => rfl
  | cons p ps ih => rw [List.foldl_cons, ih, competePair_nodes]

lemma compFold_mono (ps : List (String × String)) (g : GraphState)
    (e : Nat × Nat × String) (h : e ∈ g.edges) :
    e ∈ (ps.foldl (fun g p => competePair p.1 p.2 g) g).edges := by
  induction ps generalizing g with
  | nil => exact h
  | cons p ps ih => exact ih (competePair p.1 p.2 g) (competePair_mono p.1 p.2 g e h)

lemma compFold_creates (ps : List (String × String)) (g : GraphState)
    (x y : String) (a b : Nat) (hxy : (x, y) ∈ ps)
    (ha : ∃ n, g.nodes.get? a = some n ∧ n.id = x ∧ "Organization" ∈ n.labels)
    (hb : ∃ n, g.nodes.get? b = some n ∧ n.id = y ∧ "Organization" ∈ n.labels) :
    (a, b, "COMPETES_WITH") ∈ (ps.foldl (fun g p => competePair p.1 p.2 g) g).edges ∧
    (b, a, "COMPETES_WITH") ∈ (ps.foldl (fun g p => competePair p.1 p.2 g) g).edges := by
  induction ps generalizing g with
  | nil => cases hxy
  | cons p ps ih =>
    rw [List.foldl_cons]
    rcases List.mem_cons.mp hxy with heq | hmem
    · subst heq
      have hcre := competePair_creates x y g a b ha hb
      exact ⟨compFold_mono ps _ _ hcre.1, compFold_mono ps _ _ hcre.2⟩
    · have hn := competePair_nodes p.1 p.2 g
      exact ih (competePair p.1 p.2 g) hmem (by rw [hn]; exact ha) (by rw [hn]; exact hb)

lemma edgeExistsB_of_mem (g : GraphState) (a b : Nat) (typ s t : String)
    (hmem : (a, b, typ) ∈ g.edges)
    (ha : ∃ n, g.nodes.get? a = some n ∧ n.id = s)
    (hb : ∃ n, g.nodes.get? b = some n ∧ n.id = t) :
    edgeExistsB g s t typ = true := by
  unfold edgeExistsB
  rw [List.any_eq_true]
  obtain ⟨na, hga, hia⟩ := ha
  obtain ⟨nb, hgb, hib⟩ := hb
  refine ⟨(a, b, typ), hmem, ?_⟩
  have hga2 : g.nodes[a]? = some na := by rw [← List.get?_eq_getElem?]; exact hga
  have hgb2 : g.nodes[b]? = some nb := by rw [← List.get?_eq_getElem?]; exact hgb
  simp [hga2, hgb2, hia, hib]

lemma mem_companyPairs (l : List String) (i j : Nat) (x y : String)
    (hij : i < j) (hx : l.get? i = some x) (hy : l.get? j = some y) :
    (x, y) ∈ companyPairs l := by
  induction l generalizing i j with
  | nil => cases hx
  | cons c rest ih =>
    unfold companyPairs
    rw [List.mem_append]
    cases i with
    | zero =>
      left
      cases j with
      | zero => cases hij
      | succ j1 =>
        have hxc : c = x := by
          simp only [List.get?] at hx
          exact Option.some.inj hx
        have hymem : y ∈ rest := List.get?_mem (by simpa using hy)
        rw [List.mem_map]
        exact ⟨y, hymem, by rw [hxc]⟩
    | succ i1 =>
      right
      cases j with
      | zero => cases hij
      | succ j1 =>
        exact ih i1 j1 (Nat.lt_of_succ_lt_succ hij) (by simpa using hx) (by simpa using hy)

lemma get?_lt_of_some {α : Type} (l : List α) (i : Nat) (a : α)
    (h : l.get? i = some a) : i < l.length := by
  by_contra hge
  rw [List.get?_eq_none.mpr (Nat.le_of_not_lt hge)] at h
  cases h

lemma get?_mergeNodeLabelId (label id : String) (g : GraphState) (i : Nat) (n : GNode)
    (h : g.nodes.get? i = some n) :
    (mergeNodeLabelId label id g).nodes.get? i = some n := by
  unfold mergeNodeLabelId
  split
  · exact h
  · have hi : i < g.nodes.length := get?_lt_of_some g.nodes i n h
    rw [List.get?_append hi]
    exact h

lemma mergeNodeLabelId_establishes (label id : String) (g : GraphState) :
    ∃ i n, (mergeNodeLabelId label id g).nodes.get? i = some n ∧
      n.id = id ∧ label ∈ n.labels := by
  unfold mergeNodeLabelId
  split
  · next h =>
    obtain ⟨n, hn, hid, hl⟩ := h
    obtain ⟨i, hi⟩ := List.mem_iff_get?.mp hn
    exact ⟨i, n, hi, hid, hl⟩
  · refine ⟨g.nodes.length, ⟨id, [label], []⟩, ?_, rfl, List.mem_singleton.mpr rfl⟩
    exact List.get?_concat_length g.nodes ⟨id, [label], []⟩

lemma foldl_mergeNode_preserves (label : String) (xs : List String) (g : GraphState)
    (i : Nat) (n : GNode) (h : g.nodes.get? i = some n) :
    (xs.foldl (fun g x => mergeNodeLabelId label x g) g).nodes.get? i = some n := by
  induction xs generalizing g with
  | nil => exact h
  | cons x xs ih =>
    rw [List.foldl_cons]
    exact ih (mergeNodeLabelId label x g) (get?_mergeNodeLabelId label x g i n h)

lemma foldl_mergeNode_establishes (label : String) (xs : List String) (g : GraphState)
    (x : String) (hx : x ∈ xs) :
    ∃ i n, (xs.foldl (fun g x => mergeNodeLabelId label x g) g).nodes.get? i = some n ∧
      n.id = x ∧ label ∈ n.labels := by
  induction xs generalizing g with
  | nil => cases hx
  | cons y xs ih =>
    rw [List.foldl_cons]
    rcases List.mem_cons.mp hx with rfl | hmem
    · obtain ⟨i, n, hi, hid, hl⟩ := mergeNodeLabelId_establishes label x g
      exact ⟨i, n, foldl_mergeNode_preserves label xs _ i n hi, hid, hl⟩
    · exact ih (mergeNodeLabelId label y g) hmem

lemma ingestNodes_establishes_company (d : ExtractionResult) (g : GraphState)
    (x : String) (hx : x ∈ d.companies) :
    ∃ i n, (ingestNodes d g).nodes.get? i = some n ∧
      n.id = x ∧ "Organization" ∈ n.labels := by
  obtain ⟨i, n, hi, hid, hl⟩ :=
    foldl_mergeNode_establishes "Organization" d.companies g x hx
  refine ⟨i, n, ?_, hid, hl⟩
  unfold ingestNodes
  exact foldl_mergeNode_preserves "Location" d.locations _ i n
    (foldl_mergeNode_preserves "Sector" d.sectors _ i n
      (foldl_mergeNode_preserves "Person" d.people _ i n hi))

lemma addLabel_id (l : String) (n : GNode) : (addLabel l n).id = n.id := by
  unfold addLabel; split <;> rfl

lemma mem_addLabel_of_mem (l l' : String) (n : GNode) (h : l' ∈ n.labels) :
    l' ∈ (addLabel l n).labels := by
  unfold addLabel
  split
  · exact h
  · exact List.mem_append_left _ h

lemma mem_addLabel_self (l : String) (n : GNode) : l ∈ (addLabel l n).labels := by
  unfold addLabel
  split
  · next h => exact h
  · exact List.mem_append_right _ (List.mem_singleton.mpr rfl)

lemma setLabelById_get? (id l : String) (g : GraphState) (i : Nat) :
    (setLabelById id l g).nodes.get? i =
      (g.nodes.get? i).map (fun n => if n.id = id then addLabel l n else n) := by
  unfold setLabelById
  exact List.get?_map _ _ _

lemma setLabelById_edges (id l : String) (g : GraphState) :
    (setLabelById id l g).edges = g.edges := rfl

lemma ingestRel_eq (g : GraphState) (r : Rel) :
    ingestRel g r = mergeEdgeById r.source r.target (pyUpper r.typ)
      (if pyUpper r.typ = "INVESTED_IN" then setLabelById r.source "Investor" g else g) :=
  rfl

lemma ingestRel_nodes_fact (g : GraphState) (r : Rel) (i : Nat) (n : GNode)
    (h : g.nodes.get? i = some n) :
    ∃ m, (ingestRel g r).nodes.get? i = some m ∧ m.id = n.id ∧
      ∀ l ∈ n.labels, l ∈ m.labels := by
  rw [ingestRel_eq]
  rw [show ∀ G, (mergeEdgeById r.source r.target (pyUpper r.typ) G).nodes = G.nodes
    from fun G => mergeEdgeById_nodes _ _ _ G]
  split
  · rw [setLabelById_get?, h, Option.map_some']
    refine ⟨if n.id = r.source then addLabel "Investor" n else n, rfl, ?_, ?_⟩
    · split
      · exact addLabel_id _ _
      · rfl
    · intro l hl
      split
      · exact mem_addLabel_of_mem _ _ _ hl
      · exact hl
  · exact ⟨n, h, rfl, fun l hl => hl⟩

lemma ingestRel_edges_mono (g : GraphState) (r : Rel) (e : Nat × Nat × String)
    (h : e ∈ g.edges) : e ∈ (ingestRel g r).edges := by
  rw [ingestRel_eq]
  refine (mem_addEdges e _ _).mpr (Or.inl ?_)
  split
  · exact h
  · exact h

lemma foldl_ingestRel_preserves_labels2 (l : List Rel) (g : GraphState) (s : String)
    (h : ∃ i n, g.nodes.get? i = some n ∧ n.id = s ∧
      "Organization" ∈ n.labels ∧ "Investor" ∈ n.labels) :
    ∃ i n, (l.foldl ingestRel g).nodes.get? i = some n ∧ n.id = s ∧
      "Organization" ∈ n.labels ∧ "Investor" ∈ n.labels := by
  induction l generalizing g with
  | nil => exact h
  | cons r l ih =>
    rw [List.foldl_cons]
    refine ih (ingestRel g r) ?_
    obtain ⟨i, n, hget, hid, h1, h2⟩ := h
    obtain ⟨m, hget2, hid2, hmono⟩ := ingestRel_nodes_fact g r i n hget
    exact ⟨i, m, hget2, hid2.trans hid, hmono _ h1, hmono _ h2⟩

lemma foldl_ingestRel_preserves_nodeLabel (l : List Rel) (g : GraphState)
    (s lab : String)
    (h : ∃ i n, g.nodes.get? i = some n ∧ n.id = s ∧ lab ∈ n.labels) :
    ∃ i n, (l.foldl ingestRel g).nodes.get? i = some n ∧ n.id = s ∧
      lab ∈ n.labels := by
  induction l generalizing g with
  | nil => exact h
  | cons r l ih =>
    rw [List.foldl_cons]
    refine ih (ingestRel g r) ?_
    obtain ⟨i, n, hget, hid, h1⟩ := h
    obtain ⟨m, hget2, hid2, hmono⟩ := ingestRel_nodes_fact g r i n hget
    exact ⟨i, m, hget2, hid2.trans hid, hmono _ h1⟩

lemma foldl_ingestRel_preserves_edge (l : List Rel) (g : GraphState) (s t : String)
    (h : ∃ a b na nb, g.nodes.get? a = some na ∧ na.id = s ∧
      g.nodes.get? b = some nb ∧ nb.id = t ∧ (a, b, "INVESTED_IN") ∈ g.edges) :
    ∃ a b na nb, (l.foldl ingestRel g).nodes.get? a = some na ∧ na.id = s ∧
      (l.foldl ingestRel g).nodes.get? b = some nb ∧ nb.id = t ∧
      (a, b, "INVESTED_IN") ∈ (l.foldl ingestRel g).edges := by
  induction l generalizing g with
  | nil => exact h
  | cons r l ih =>
    rw [List.foldl_cons]
    refine ih (ingestRel g r) ?_
    obtain ⟨a, b, na, nb, hga, hia, hgb, hib, hmem⟩ := h
    obtain ⟨ma, hga2, hia2, _⟩ := ingestRel_nodes_fact g r a na hga
    obtain ⟨mb, hgb2, hib2, _⟩ := ingestRel_nodes_fact g r b nb hgb
    exact ⟨a, b, ma, mb, hga2, hia2.trans hia, hgb2, hib2.trans hib,
      ingestRel_edges_mono g r _ hmem⟩

lemma ingestRel_promotes (g : GraphState) (r : Rel)
    (ht : pyUpper r.typ = "INVESTED_IN")
    (hs : ∃ i n, g.nodes.get? i = some n ∧ n.id = r.source ∧
      "Organization" ∈ n.labels)
    (htg : ∃ j m, g.nodes.get? j = some m ∧ m.id = r.target) :
    (∃ i n, (ingestRel g r).nodes.get? i = some n ∧ n.id = r.source ∧
      "Organization" ∈ n.labels ∧ "Investor" ∈ n.labels) ∧
    (∃ a b na nb, (ingestRel g r).nodes.get? a = some na ∧ na.id = r.source ∧
      (ingestRel g r).nodes.get? b = some nb ∧ nb.id = r.target ∧
      (a, b, "INVESTED_IN") ∈ (ingestRel g r).edges) := by
  rw [ingestRel_eq, ht, if_pos rfl]
  set G1 := setLabelById r.source "Investor" g with hG1
  obtain ⟨i, n, hget, hid, hOrg⟩ := hs
  obtain ⟨j, m, hgetj, hidj⟩ := htg
  have hgi : G1.nodes.get? i = some (addLabel "Investor" n) := by
    rw [hG1, setLabelById_get?, hget, Option.map_some', if_pos hid]
  have hgj : ∃ m2, G1.nodes.get? j = some m2 ∧ m2.id = r.target := by
    rw [hG1, setLabelById_get?, hgetj, Option.map_some']
    by_cases hc : m.id = r.source
    · exact ⟨addLabel "Investor" m, by rw [if_pos hc], by rw [addLabel_id]; exact hidj⟩
    · exact ⟨m, by rw [if_neg hc], hidj⟩
  obtain ⟨m2, hgj2, hidj2⟩ := hgj
  have hnodes2 :
      (mergeEdgeById r.source r.target "INVESTED_IN" G1).nodes = G1.nodes :=
    mergeEdgeById_nodes _ _ _ G1
  have hia : i ∈ nodeIdxs G1 (fun n => decide (n.id = r.source)) :=
    (mem_nodeIdxs G1 _ i).mpr ⟨addLabel "Investor" n, hgi, by
      rw [addLabel_id]
      simp [hid]⟩
  have hjb : j ∈ nodeIdxs G1 (fun n => decide (n.id = r.target)) :=
    (mem_nodeIdxs G1 _ j).mpr ⟨m2, hgj2, by simp [hidj2]⟩
  have hrow : (i, j, "INVESTED_IN") ∈ edgeRows G1 r.source r.target "INVESTED_IN" := by
    unfold edgeRows
    rw [List.mem_flatMap]
    exact ⟨i, hia, List.mem_map.mpr ⟨j, hjb, rfl⟩⟩
  have hedge : (i, j, "INVESTED_IN") ∈
      (mergeEdgeById r.source r.target "INVESTED_IN" G1).edges :=
    (mem_addEdges _ _ G1).mpr (Or.inr hrow)
  constructor
  · exact ⟨i, addLabel "Investor" n, by rw [hnodes2]; exact hgi,
      by rw [addLabel_id]; exact hid,
      mem_addLabel_of_mem _ _ _ hOrg, mem_addLabel_self _ _⟩
  · exact ⟨i, j, addLabel "Investor" n, m2, by rw [hnodes2]; exact hgi,
      by rw [addLabel_id]; exact hid, by rw [hnodes2]; exact hgj2, hidj2, hedge⟩

lemma hasNodeLabels2B_intro (g : GraphState) (id l1 l2 : String)
    (h : ∃ i n, g.nodes.get? i = some n ∧ n.id = id ∧
      l1 ∈ n.labels ∧ l2 ∈ n.labels) :
    hasNodeLabels2B g id l1 l2 = true := by
  obtain ⟨i, n, hget, hid, h1, h2⟩ := h
  unfold hasNodeLabels2B
  rw [List.any_eq_true]
  exact ⟨n, List.get?_mem hget, by simp [hid, h1, h2]⟩

lemma mergeNodeLabelId_idem (label id : String) (g : GraphState) :
    mergeNodeLabelId label id (mergeNodeLabelId label id g) =
      mergeNodeLabelId label id g := by
  by_cases h : ∃ n ∈ g.nodes, n.id = id ∧ label ∈ n.labels
  · have h1 : mergeNodeLabelId label id g = g := by
      unfold mergeNodeLabelId
      rw [if_pos h]
    rw [h1, h1]
  · have h1 : mergeNodeLabelId label id g =
        { g with nodes := g.nodes ++ [⟨id, [label], []⟩] } := by
      unfold mergeNodeLabelId
      rw [if_neg h]
    rw [h1]
    unfold mergeNodeLabelId
    apply if_pos
    exact ⟨⟨id, [label], []⟩,
      List.mem_append_right _ (List.mem_singleton.mpr rfl), rfl,
      List.mem_singleton.mpr rfl⟩

lemma find?_first_spec (p : String → Bool) (l : List String) (h : l.any p = true) :
    ∃ k e, l.get? k = some e ∧ p e = true ∧ l.find? p = some e ∧
      ∀ m e2, m < k → l.get? m = some e2 → p e2 = false := by
  induction l with
  | nil => simp at h
  | cons x xs ih =>
    by_cases hx : p x = true
    · refine ⟨0, x, rfl, hx, ?_, ?_⟩
      · rw [List.find?_cons_of_pos _ hx]
      · intro m e2 hm
        exact absurd hm (Nat.not_lt_zero m)
    · have hx2 : p x = false := Bool.eq_false_iff.mpr hx
      have hxs : xs.any p = true := by
        rw [List.any_cons, hx2] at h
        simpa using h
      obtain ⟨k, e, hget, hpe, hfind, hmin⟩ := ih hxs
      refine ⟨k + 1, e, by simpa using hget, hpe, ?_, ?_⟩
      · rw [List.find?_cons_of_neg _ (by simp [hx2])]
        exact hfind
      · intro m e2 hm hget2
        cases m with
        | zero =>
          have : x = e2 := by simpa using hget2
          rw [← this]
          exact hx2
        | succ m1 =>
          exact hmin m1 e2 (Nat.lt_of_succ_lt_succ hm) (by simpa using hget2)

/-! ### Claim theorems -/

/-- C1 (corrected): the node merges issued by the ingestion path are keyed on
the pair (label, id), not on id alone.  Re-merging the same mention under the
same label is idempotent, and an `INVESTED_IN` reference promotes the existing
node — a node first created as Organization and later referenced as an
investment source is one node labeled both Organization and Investor.  (The
counterexample shows the id-only uniqueness part of the claim fails when the
same id arrives under two different labels.) -/
theorem C1_merge_keyed_on_label_and_id :
    (∀ (label id : String) (g : GraphState),
      mergeNodeLabelId label id (mergeNodeLabelId label id g) =
        mergeNodeLabelId label id g) ∧
    (nodeCountWithId
        (ingest ⟨["OpenAI"], [], [], [], [invDemoRel]⟩
          (ingest ⟨["Microsoft"], [], [], [], []⟩ emptyGraph)) "Microsoft" = 1 ∧
     hasNodeLabels2B
        (ingest ⟨["OpenAI"], [], [], [], [invDemoRel]⟩
          (ingest ⟨["Microsoft"], [], [], [], []⟩ emptyGraph)) "Microsoft"
        "Organization" "Investor" = true) :=
  ⟨mergeNodeLabelId_idem, by decide, by decide⟩

/-- C1 counterexample: an extraction mentioning the same id "X" both as a
company and as a person makes the ingestion path create two nodes with id
"X" (`MERGE (n:Organization {id})` does not match the Person node), refuting
"a node is uniquely identified by its id alone". -/
theorem C1_counterexample_duplicate_id :
    nodeCountWithId (ingest ⟨["X"], ["X"], [], [], []⟩ emptyGraph) "X" = 2 := by
  decide

/-- C2 (code bug): the only escaping applied to interpolated values is
`replace("'", "\\'")`.  For the value `\' RETURN 1` the escaped fragment
`'\\\' RETURN 1'` is read by the Cypher lexer as the literal `\` followed by
bare query text ` RETURN 1'` — the attacker-controlled remainder escapes the
string literal, so the value is not treated as a single literal. -/
theorem C2_escaping_fails_on_backslash :
    readLiteral (escapedLiteral "\\' RETURN 1") =
      some ("\\".data, " RETURN 1'".data) ∧
    "\\".data ≠ ("\\' RETURN 1").data ∧
    (" RETURN 1'").data ≠ ([] : List Char) :=
  ⟨by decide, by decide, by decide⟩

/-- C6 counterexample: the end-marker character sequence `:ACTION>>>` occurs
verbatim (unescaped) inside the JSON encoding of a `create_text_node` payload
whose content contains it — `json.dumps` escapes neither `<`, `>` nor `:`. -/
theorem C6_counterexample_marker_in_payload :
    containsSubstr
      (pyDumps (JValue.obj [("type", JValue.str "create_node"),
        ("data", textNodeData "x" ":ACTION>>>")]))
      ":ACTION>>>" = true := by
  decide

/-- C6 (corrected): every action record is wrapped in the fixed pair
`\n<<<ACTION:` … `:ACTION>>>\n`, and for payloads whose serialized fields do
not contain the marker text (such as the `create_metric_node` example) the
markers do not occur inside the JSON body, so the split is unambiguous for
them; but a payload string containing the marker text appears unescaped in
the body, so the markers are not collision-proof in general. -/
theorem C6_marker_wrapping_amended :
    (∀ (typ : String) (data : JValue),
      emit_action typ data =
        "\n<<<ACTION:" ++
          pyDumps (JValue.obj [("type", JValue.str typ), ("data", data)]) ++
          ":ACTION>>>\n") ∧
    containsSubstr
      (pyDumps (JValue.obj [("type", JValue.str "create_metric"),
        ("data", metricNodeData "P/E Ratio" "28.5" "" "neutral" "")]))
      ":ACTION>>>" = false ∧
    containsSubstr
      (pyDumps (JValue.obj [("type", JValue.str "create_metric"),
        ("data", metricNodeData "P/E Ratio" "28.5" "" "neutral" "")]))
      "<<<ACTION:" = false ∧
    containsSubstr (pyDumps (textNodeData "x" ":ACTION>>>")) ":ACTION>>>" = true :=
  ⟨fun _ _ => rfl, by decide, by decide, by decide⟩

/-- C7 counterexample: on an unparsable extraction the research tool returns
`"Error: " ++ str(e)` — the raw parser error payload is embedded in the
user-visible fallback string, refuting "never a raw error payload". -/
theorem C7_counterexample_raw_error :
    (research_and_learn true (Except.ok "raw page text")
        (Except.error "Expecting value: line 1 column 1 (char 0)")
        emptyGraph).fst =
      "Error: Expecting value: line 1 column 1 (char 0)" ∧
    containsSubstr
      (research_and_learn true (Except.ok "raw page text")
        (Except.error "Expecting value: line 1 column 1 (char 0)")
        emptyGraph).fst
      "Expecting value: line 1 column 1 (char 0)" = true :=
  ⟨by decide, by decide⟩

/-- C7 (corrected): every enumerated failure is caught and converted to a
string result — no exception reaches the orchestrator, and the query tool's
fallback is the fixed plain sentence — but the research tool's fallbacks
embed the raw error text rather than a plain-language-only sentence. -/
theorem C7_error_fallbacks :
    (∀ (e : String) (p : Except String ExtractionResult) (g : GraphState),
      research_and_learn true (Except.error e) p g = ("Search failed: " ++ e, g)) ∧
    (∀ (raw e : String) (g : GraphState),
      research_and_learn true (Except.ok raw) (Except.error e) g =
        ("Error: " ++ e, g)) ∧
    (∀ (s : Except String String) (p : Except String ExtractionResult)
        (g : GraphState),
      research_and_learn false s p g = ("Search tool not available.", g)) ∧
    (∀ e : String, query_graph_database (Except.error e) = "No info in graph.") ∧
    (∀ r : String, query_graph_database (Except.ok r) = r) :=
  ⟨fun _ _ _ => rfl, fun _ _ _ => rfl, fun _ _ _ => rfl, fun _ => rfl, fun _ => rfl⟩

/-- C8 counterexample: the query `"  openai research  "` contains the known
entity `openai`, so the extractor returns the canonical `"OpenAI"`, not the
trimmed title-cased `"Openai Research"` the claim states. -/
theorem C8_counterexample_known_entity_shortcut :
    extract_entity_from_query "  openai research  " = "OpenAI" ∧
    extract_entity_from_query "  openai research  " ≠ "Openai Research" :=
  ⟨by decide, by decide⟩

/-- C8 (corrected): a mention containing a known entity name takes the
hard-coded canonical spelling (`"  openai research  "` ↦ `"OpenAI"`); the
trim-and-title-case path applies only to mentions matching no known entity,
e.g. `"  acme research  "` ↦ `"Acme Research"`. -/
theorem C8_normalizer_amended :
    extract_entity_from_query "  openai research  " = "OpenAI" ∧
    extract_entity_from_query "  acme research  " = "Acme Research" :=
  ⟨by decide, by decide⟩

/-- C3 (confirmed): edge upserts are idempotent.  When the graph holds exactly
one node with the source id (index `a`) and exactly one with the target id
(index `b`), and the edge triple is not already duplicated, applying the
relationship merge issued at tools.py lines 103–107 twice equals applying it
once, and the resulting graph holds exactly one edge of that type between the
two nodes. -/
theorem C3_edge_upsert_idempotent (s t typ : String) (g : GraphState) (a b : Nat)
    (ha : nodeIdxs g (fun n => decide (n.id = s)) = [a])
    (hb : nodeIdxs g (fun n => decide (n.id = t)) = [b])
    (hcount : countEdge g (a, b, typ) ≤ 1) :
    mergeEdgeById s t typ (mergeEdgeById s t typ g) = mergeEdgeById s t typ g ∧
    countEdge (mergeEdgeById s t typ g) (a, b, typ) = 1 := by
  refine ⟨mergeEdgeById_idem s t typ g, ?_⟩
  have hrows : edgeRows g s t typ = [(a, b, typ)] := by
    unfold edgeRows
    rw [ha, hb]
    simp
  show countEdge (addEdges (edgeRows g s t typ) g) (a, b, typ) = 1
  rw [hrows]
  exact countEdge_addEdgeIfAbsent_self (a, b, typ) g hcount

/-- C4 (confirmed): `create_competition` links every pair of positions
`i < j` of the company list in both directions.  If the graph holds an
`Organization` node for `companies[i]` and one for `companies[j]`, then after
`create_competition` both the forward and the backward `COMPETES_WITH` edge
exist between them (seed.py lines 171–179). -/
theorem C4_competition_both_directions (companies : List String) (g : GraphState)
    (i j a b : Nat) (x y : String) (hij : i < j)
    (hx : companies.get? i = some x) (hy : companies.get? j = some y)
    (ha : ∃ n, g.nodes.get? a = some n ∧ n.id = x ∧ "Organization" ∈ n.labels)
    (hb : ∃ n, g.nodes.get? b = some n ∧ n.id = y ∧ "Organization" ∈ n.labels) :
    edgeExistsB (create_competition companies g) x y "COMPETES_WITH" = true ∧
    edgeExistsB (create_competition companies g) y x "COMPETES_WITH" = true := by
  obtain ⟨na, hga, hia, hla⟩ := ha
  obtain ⟨nb, hgb, hib, hlb⟩ := hb
  have hpair := mem_companyPairs companies i j x y hij hx hy
  have hcre := compFold_creates (companyPairs companies) g x y a b hpair
    ⟨na, hga, hia, hla⟩ ⟨nb, hgb, hib, hlb⟩
  have hn : (create_competition companies g).nodes = g.nodes := compFold_nodes _ g
  have hga2 : (create_competition companies g).nodes.get? a = some na := by
    rw [hn]; exact hga
  have hgb2 : (create_competition companies g).nodes.get? b = some nb := by
    rw [hn]; exact hgb
  exact ⟨edgeExistsB_of_mem _ a b _ x y hcre.1 ⟨na, hga2, hia⟩ ⟨nb, hgb2, hib⟩,
    edgeExistsB_of_mem _ b a _ y x hcre.2 ⟨nb, hgb2, hib⟩ ⟨na, hga2, hia⟩⟩

/-- Witness for C4: `create_competition(["A","B"])` on a graph holding
Organization nodes A and B yields both directed COMPETES_WITH edges. -/
theorem C4_competition_both_directions_witness :
    ((0 : Nat) < 1 ∧ ["A", "B"].get? 0 = some "A" ∧ ["A", "B"].get? 1 = some "B" ∧
      (∃ n, twoOrgGraph.nodes.get? 0 = some n ∧ n.id = "A" ∧ "Organization" ∈ n.labels) ∧
      (∃ n, twoOrgGraph.nodes.get? 1 = some n ∧ n.id = "B" ∧ "Organization" ∈ n.labels)) ∧
    (edgeExistsB (create_competition ["A", "B"] twoOrgGraph) "A" "B" "COMPETES_WITH" = true ∧
     edgeExistsB (create_competition ["A", "B"] twoOrgGraph) "B" "A" "COMPETES_WITH" = true) :=
  ⟨⟨by decide, by decide, by decide,
      ⟨⟨"A", ["Organization"], []⟩, by decide⟩, ⟨⟨"B", ["Organization"], []⟩, by decide⟩⟩,
   C4_competition_both_directions ["A", "B"] twoOrgGraph 0 1 0 1 "A" "B" (by decide)
     (by decide) (by decide)
     ⟨⟨"A", ["Organization"], []⟩, by decide⟩
     ⟨⟨"B", ["Organization"], []⟩, by decide⟩⟩

/-- C5 (confirmed): during ingestion every entity node upsert runs before any
edge merge, so a relationship whose endpoints are among the extracted company
mentions always finds its nodes; and for an `INVESTED_IN` triple the source
node is promoted to `Investor` while keeping its `Organization` label
(tools.py lines 92–107). -/
theorem C5_nodes_before_edges (d : ExtractionResult) (g : GraphState) (r : Rel)
    (hr : r ∈ d.relationships) (ht : pyUpper r.typ = "INVESTED_IN")
    (hs : r.source ∈ d.companies) (htg : r.target ∈ d.companies) :
    hasNodeLabels2B (ingest d g) r.source "Organization" "Investor" = true ∧
    edgeExistsB (ingest d g) r.source r.target "INVESTED_IN" = true := by
  obtain ⟨l1, l2, hsplit⟩ := List.append_of_mem hr
  unfold ingest
  rw [hsplit, List.foldl_append, List.foldl_cons]
  have hsrc0 := ingestNodes_establishes_company d g r.source hs
  have htgt0 := ingestNodes_establishes_company d g r.target htg
  have hsrc1 := foldl_ingestRel_preserves_nodeLabel l1 (ingestNodes d g)
    r.source "Organization" hsrc0
  have htgt1 := foldl_ingestRel_preserves_nodeLabel l1 (ingestNodes d g)
    r.target "Organization" htgt0
  have htgt2 : ∃ j m, (l1.foldl ingestRel (ingestNodes d g)).nodes.get? j = some m ∧
      m.id = r.target := by
    obtain ⟨j, m, h1, h2, _⟩ := htgt1
    exact ⟨j, m, h1, h2⟩
  have hstep := ingestRel_promotes (l1.foldl ingestRel (ingestNodes d g)) r ht hsrc1 htgt2
  have hlab := foldl_ingestRel_preserves_labels2 l2 _ r.source hstep.1
  have hedg := foldl_ingestRel_preserves_edge l2 _ r.source r.target hstep.2
  constructor
  · exact hasNodeLabels2B_intro _ _ _ _ hlab
  · obtain ⟨a, b, na, nb, hga, hia, hgb, hib, hmem⟩ := hedg
    exact edgeExistsB_of_mem _ a b _ _ _ hmem ⟨na, hga, hia⟩ ⟨nb, hgb, hib⟩

/-- Witness for C5: ingesting an extraction naming Microsoft and OpenAI as
companies with a Microsoft-INVESTED_IN-OpenAI triple produces a single
Microsoft node labeled Organization and Investor, and the edge. -/
theorem C5_nodes_before_edges_witness :
    (invDemoRel ∈ invDemoExtraction.relationships ∧
     pyUpper invDemoRel.typ = "INVESTED_IN" ∧
     invDemoRel.source ∈ invDemoExtraction.companies ∧
     invDemoRel.target ∈ invDemoExtraction.companies) ∧
    (hasNodeLabels2B (ingest invDemoExtraction emptyGraph) invDemoRel.source
        "Organization" "Investor" = true ∧
     edgeExistsB (ingest invDemoExtraction emptyGraph) invDemoRel.source
        invDemoRel.target "INVESTED_IN" = true) :=
  ⟨⟨by decide, by decide, by decide, by decide⟩,
   C5_nodes_before_edges invDemoExtraction emptyGraph invDemoRel
     (by decide) (by decide) (by decide) (by decide)⟩

/-- Witness for C3 on a concrete two-node graph. -/
theorem C3_edge_upsert_idempotent_witness :
    (nodeIdxs twoOrgGraph (fun n => decide (n.id = "A")) = [0] ∧
     nodeIdxs twoOrgGraph (fun n => decide (n.id = "B")) = [1] ∧
     countEdge twoOrgGraph (0, 1, "INVESTED_IN") ≤ 1) ∧
    (mergeEdgeById "A" "B" "INVESTED_IN"
        (mergeEdgeById "A" "B" "INVESTED_IN" twoOrgGraph) =
      mergeEdgeById "A" "B" "INVESTED_IN" twoOrgGraph ∧
     countEdge (mergeEdgeById "A" "B" "INVESTED_IN" twoOrgGraph)
        (0, 1, "INVESTED_IN") = 1) :=
  ⟨⟨by decide, by decide, by decide⟩,
    C3_edge_upsert_idempotent "A" "B" "INVESTED_IN" twoOrgGraph 0 1
      (by decide) (by decide) (by decide)⟩

/-- C9 (confirmed): whenever the lowercased query contains the lowercase name
of some hard-coded known entity, `extract_entity_from_query` returns the
canonical spelling of the first matching entity in list order — the prefix
stripping and title-casing are bypassed (the result is a verbatim element of
the list, every earlier entity does not match). -/
theorem C9_first_known_entity_wins (q : String)
    (h : knownEntities.any (fun e => containsSubstr (pyLower q) (pyLower e)) = true) :
    ∃ k, knownEntities.get? k = some (extract_entity_from_query q) ∧
      containsSubstr (pyLower q) (pyLower (extract_entity_from_query q)) = true ∧
      ∀ m e2, m < k → knownEntities.get? m = some e2 →
        containsSubstr (pyLower q) (pyLower e2) = false := by
  have hq : q ≠ "" := by
    rintro rfl
    revert h
    decide
  obtain ⟨k, e, hget, hpe, hfind, hmin⟩ :=
    find?_first_spec (fun e => containsSubstr (pyLower q) (pyLower e)) knownEntities h
  have hval : extract_entity_from_query q = e := by
    unfold extract_entity_from_query
    rw [if_neg hq]
    show (match knownEntities.find?
        (fun e => containsSubstr (pyLower q) (pyLower e)) with
      | some e => e
      | none => pyTitle (pyStrip
          (leadPhrases.foldl (fun s p => stripLeadPhrase p s) q))) = e
    rw [hfind]
  rw [hval]
  exact ⟨k, hget, hpe, hmin⟩

/-- Witness for C9: `"tell me about swiggy ceo"` contains the known entity
`swiggy` and the extractor returns the canonical `"Swiggy"`. -/
theorem C9_first_known_entity_wins_witness :
    (knownEntities.any
      (fun e => containsSubstr (pyLower "tell me about swiggy ceo") (pyLower e)) =
        true) ∧
    (extract_entity_from_query "tell me about swiggy ceo" = "Swiggy" ∧
     ∃ k, knownEntities.get? k =
        some (extract_entity_from_query "tell me about swiggy ceo") ∧
      containsSubstr (pyLower "tell me about swiggy ceo")
        (pyLower (extract_entity_from_query "tell me about swiggy ceo")) = true ∧
      ∀ m e2, m < k → knownEntities.get? m = some e2 →
        containsSubstr (pyLower "tell me about swiggy ceo") (pyLower e2) = false) :=
  ⟨by decide, by decide,
    C9_first_known_entity_wins "tell me about swiggy ceo" (by decide)⟩

/-- C10 (confirmed): `analyze_portfolio` emits one chart action per ticker,
capped at the first six fields of the comma-split input, each field trimmed
and uppercased; the trailing confirmation sentence lists every supplied
ticker (one per comma-separated field, beyond the first six included). -/
theorem C10_portfolio_chart_cap (t : String) :
    (portfolioActions t).length = min (tickerSplit t).length 6 ∧
    (∀ i, (portfolioActions t).get? i =
      if i < 6 then ((pySplitComma t).get? i).map
        (fun s => chartAction (pyUpper (pyStrip s))) else none) ∧
    (∃ leading, analyze_portfolio t =
      leading ++ "\nCreated portfolio view for: " ++
        String.intercalate ", " (tickerSplit t)) ∧
    (tickerSplit t).length = (pySplitComma t).length := by
  refine ⟨?_, ?_, ?_, ?_⟩
  · unfold portfolioActions
    rw [List.length_map, List.length_take, Nat.min_comm]
  · intro i
    unfold portfolioActions tickerSplit
    by_cases hi : i < 6
    · rw [if_pos hi, List.get?_map, List.get?_take hi, List.get?_map,
        Option.map_map]
      rfl
    · rw [if_neg hi]
      apply List.get?_eq_none.mpr
      rw [List.length_map]
      exact le_trans (le_trans (List.length_take_le 6 _) (Nat.le_of_not_lt hi))
        (Nat.le_refl i) |>.trans (Nat.le_refl i)
  · exact ⟨(portfolioActions t).foldl
      (fun acc a => acc ++ "\n<<<ACTION:" ++ pyDumps a ++ ":ACTION>>>\n") "", rfl⟩
  · unfold tickerSplit
    rw [List.length_map]

end Vantage
